import Mathlib

/-!
Verification of the incremental-coverage core of
`.github/workflows/compute-incremental-coverage.py` (shaka-project/shaka-player).

The embedding below translates, from the Python source:
  * `CoverageLines`             (line-range expansion),
  * `CoverageDetails.__init__`  (the StatementMap Resolver: function-span
    subtraction, nested-statement subtraction, instrumented/executed sets,
    and the KeyError on an executed-but-unknown statement id),
  * `PullRequest.__init__`      (the Diff Line Extractor over a unified-diff
    patch string, including Python `str.split` semantics),
  * `IncrementalCoverage`       (the Aggregator and its None sentinel).

Python dictionaries are modelled as association lists in insertion order
(Python 3 dicts iterate in insertion order); JSON objects have unique keys.
Python sets of ints are `Finset Nat`; Python's proper-subset test `<` is `⊂`
and set subtraction `-=` is `\`.  The float division at the end of
`IncrementalCoverage` is modelled exactly over `ℚ`.
-/

/-- A `start`/`end` line pair, as found in the `loc` objects of the
instrumentation JSON (`"start": then "line":, "end": then "line":).
Columns are ignored by the Python code, so they are not modelled. -/
structure Loc where
  startLine : Nat
  endLine : Nat
deriving DecidableEq, Repr

/-- Source `CoverageLines`: the set built by
`for line in range(start_line, end_line + 1): lines.add(line)`.
`range(s, e + 1)` is exactly the integer interval `[s, e]`, empty when
`e < s`, which is `Finset.Icc`. -/
def CoverageLines (r : Loc) : Finset Nat :=
  Finset.Icc r.startLine r.endLine

/-- Source lines 137-139: for each function line-set, if it is a strict
subset (`<`) of the statement's current line-set, subtract it (`-=`).
The Python loop mutates `lines` as it goes, so each later test sees the
already-shrunk set: a left fold. -/
def subtractFunctions (fnLocs : List (Finset Nat)) (lines : Finset Nat) : Finset Nat :=
  fnLocs.foldl (fun acc f => if f ⊂ acc then acc \ f else acc) lines

/-- Source lines 144-148: for each previously recorded statement, if the
current statement's lines are a strict subset of that older statement's
current set, subtract them from the older statement. -/
def subtractNested (lines : Finset Nat) (older : List (String × Finset Nat)) :
    List (String × Finset Nat) :=
  older.map (fun kv => if lines ⊂ kv.2 then (kv.1, kv.2 \ lines) else kv)

/-- Source lines 129-150: the main statement loop.  Each statement's span is
expanded, strictly-nested functions are subtracted, the result is subtracted
from strictly containing earlier statements, and the statement is appended
to `statement_to_lines` (insertion order). -/
def buildStatementToLines (fnLocs : List (Finset Nat)) :
    List (String × Loc) → List (String × Finset Nat) → List (String × Finset Nat)
  | [], acc => acc
  | (key, loc) :: rest, acc =>
      let lines := subtractFunctions fnLocs (CoverageLines loc)
      buildStatementToLines fnLocs rest (subtractNested lines acc ++ [(key, lines)])

/-- Source lines 152-155: `instrumented_lines` is the union of whatever is
left in every statement's line-set. -/
def instrumentedLines (stl : List (String × Finset Nat)) : Finset Nat :=
  stl.foldl (fun acc kv => acc ∪ kv.2) ∅

/-- Python dict lookup `statement_to_lines[key]`, as an `Option`. -/
def lookupStmt (stl : List (String × Finset Nat)) (k : String) : Option (Finset Nat) :=
  (stl.find? (fun kv => kv.1 == k)).map (fun kv => kv.2)

/-- The error raised while resolving one file's instrumentation.  The code
raises a bare `KeyError` from `statement_to_lines[key]` (line 162); the spec
names this condition `MalformedInstrumentationError`. -/
inductive MalformedInstrumentationError where
  | keyError
deriving DecidableEq, Repr

/-- Source lines 159-163: `executed_lines`.  For each `(key, executed)` of
the `"s"` map, in order: if `executed` is truthy (a nonzero count), look the
key up in `statement_to_lines` (raising `KeyError` when absent) and add all
its lines; a zero count does nothing. -/
def executedLines (stl : List (String × Finset Nat)) :
    List (String × Nat) → Finset Nat →
    Except MalformedInstrumentationError (Finset Nat)
  | [], acc => .ok acc
  | (key, cnt) :: rest, acc =>
      if cnt ≠ 0 then
        match lookupStmt stl key with
        | some ls => executedLines stl rest (acc ∪ ls)
        | none => .error .keyError
      else executedLines stl rest acc

/-- The per-file result stored in `self.files[path]`. -/
structure FileCoverage where
  instrumented : Finset Nat
  executed : Finset Nat
deriving DecidableEq

deriving instance DecidableEq for Except

/-- Source lines 109-168: the whole per-file body of
`CoverageDetails.__init__` — function locations, the statement loop, the
instrumented union and the executed union (which can raise). -/
def coverageDetailsFile (fnMap : List (String × Loc)) (statementMap : List (String × Loc))
    (s : List (String × Nat)) : Except MalformedInstrumentationError FileCoverage :=
  let fnLocs := fnMap.map (fun kv => CoverageLines kv.2)
  let stl := buildStatementToLines fnLocs statementMap []
  match executedLines stl s ∅ with
  | .ok ex => .ok ⟨instrumentedLines stl, ex⟩
  | .error e => .error e

/-- Boolean test that the first list is an initial segment of the second;
used to locate separator occurrences when modelling Python `str.split`. -/
def isLeading : List Char → List Char → Bool
  | [], _ => true
  | _ :: _, [] => false
  | a :: as, b :: bs => a == b && isLeading as bs

/-- First occurrence of the (nonempty) separator `sep` in `s`: returns the
part before it and the part after it, or `none` when `sep` does not occur.
This is the single scanning step of Python `str.split(sep)`. -/
def splitFirst (sep : List Char) : List Char → Option (List Char × List Char)
  | [] => none
  | c :: rest =>
      if isLeading sep (c :: rest) then some ([], (c :: rest).drop sep.length)
      else
        match splitFirst sep rest with
        | none => none
        | some (a, b) => some (c :: a, b)

/-- Fuel-indexed worker for `pySplit`.  Each recursive call is on the part
after an occurrence of the nonempty separator, which is strictly shorter, so
the fuel supplied by `pySplit` (length + 1) is never exhausted. -/
def pySplitAux : Nat → List Char → List Char → List (List Char)
  | 0, _, s => [s]
  | fuel + 1, sep, s =>
      match splitFirst sep s with
      | none => [s]
      | some (a, b) => a :: pySplitAux fuel sep b

/-- Python `s.split(sep)` for a nonempty separator: non-overlapping,
left-to-right, keeping empty parts (so a trailing separator yields a
trailing empty string).  The source only ever splits on the nonempty
separators newline, plus sign, space-at-at, and comma. -/
def pySplit (sep s : List Char) : List (List Char) :=
  pySplitAux (s.length + 1) sep s

/-- Decimal value of a digit string, most significant digit first. -/
def digitsVal (ds : List Char) : Nat :=
  ds.foldl (fun a c => a * 10 + (c.toNat - '0'.toNat)) 0

/-- Python `int(s)` as used on the new-file start component of a hunk
header: succeeds exactly on nonempty all-digit strings (the shape every
well-formed header produces), failing like `int()`'s `ValueError` otherwise. -/
def pyIntDigits (s : List Char) : Option Nat :=
  if s ≠ [] ∧ s.all Char.isDigit = true then some (digitsVal s) else none

/-- The exceptions the patch-parsing loop of `PullRequest.__init__` can
raise, one constructor per raising site. -/
inductive PatchError where
  /-- Python IndexError from `line[0]` on an empty line (source line 193). -/
  | indexEmptyLine
  /-- Python IndexError from `line.split("+")[1]` when the header has no
  plus sign (source line 197). -/
  | indexNoPlus
  /-- Python ValueError from `int()` on a non-numeric component
  (source line 198). -/
  | valueBadInt
  /-- Python TypeError from using `line_number` while it is still `None`
  (source lines 200-203). -/
  | typeNoneCounter
deriving DecidableEq

/-- Source lines 193-203: the body of the per-line loop.  The state is the
pair `(line_number, touched_lines)`; `line_number = none` models Python's
initial `None`.  A line starting `@` re-parses the counter from
`line.split("+")[1].split(" @@")[0].split(",")[0]`; a space advances the
counter; a `+` records then advances; anything else (including `-`) does
nothing. -/
def processLine (st : Option Nat × List Nat) (line : List Char) :
    Except PatchError (Option Nat × List Nat) :=
  match line with
  | [] => .error .indexEmptyLine
  | c :: _ =>
      if c = '@' then
        match pySplit ['+'] line with
        | _ :: second :: _ =>
            let newFileRange := (pySplit [' ', '@', '@'] second).headD []
            match pyIntDigits ((pySplit [','] newFileRange).headD []) with
            | some n => .ok (some n, st.2)
            | none => .error .valueBadInt
        | _ => .error .indexNoPlus
      else if c = ' ' then
        match st.1 with
        | some n => .ok (some (n + 1), st.2)
        | none => .error .typeNoneCounter
      else if c = '+' then
        match st.1 with
        | some n => .ok (some (n + 1), st.2 ++ [n])
        | none => .error .typeNoneCounter
      else .ok st

/-- Source lines 190-203: fold `processLine` over the lines of the patch,
stopping at the first exception. -/
def processLines : Option Nat → List Nat → List (List Char) →
    Except PatchError (List Nat)
  | _, acc, [] => .ok acc
  | o, acc, l :: ls =>
      match processLine (o, acc) l with
      | .ok (o', acc') => processLines o' acc' ls
      | .error e => .error e

/-- Source lines 190-203 as a whole: `touched_lines` for one file's patch,
starting from `line_number = None` and splitting the patch on newlines. -/
def extractTouchedLines (patch : List Char) : Except PatchError (List Nat) :=
  processLines none [] (pySplit ['\n'] patch)

/-- Python dict membership/lookup `coverage_details.files[path]` guarded by
`path in coverage_details.files` (source lines 212-215). -/
def lookupFile (files : List (String × FileCoverage)) (path : String) :
    Option FileCoverage :=
  (files.find? (fun kv => kv.1 == path)).map (fun kv => kv.2)

/-- Source lines 217-222: one changed line's contribution to the pair
`(num_changed, num_covered)`. -/
def countLine (instr exec : Finset Nat) (p : Nat × Nat) (line : Nat) : Nat × Nat :=
  if line ∈ instr then (p.1 + 1, if line ∈ exec then p.2 + 1 else p.2) else p

/-- Source lines 208-222: the counting loops of `IncrementalCoverage` over
all changed files that also appear in the coverage data. -/
def coverageCounts (changes : List (String × List Nat))
    (files : List (String × FileCoverage)) : Nat × Nat :=
  changes.foldl
    (fun p pc =>
      match lookupFile files pc.1 with
      | some fc => pc.2.foldl (countLine fc.instrumented fc.executed) p
      | none => p)
    (0, 0)

/-- Source lines 207-226: `IncrementalCoverage` returns `None` when
`num_changed == 0` and otherwise `num_covered / num_changed`; the float
division is modelled exactly over `ℚ`. -/
def IncrementalCoverage (changes : List (String × List Nat))
    (files : List (String × FileCoverage)) : Option ℚ :=
  let p := coverageCounts changes files
  if p.1 = 0 then none else some ((p.2 : ℚ) / (p.1 : ℚ))

/-- Modelled from the claim's wording (C6 / spec section 4.2, steps 2-4):
the lines the Extractor is claimed to record — a context line advances the
counter, an added line is recorded at the counter and then advances it, a
removed line leaves the counter untouched.  This is the spec-side
definition compared against `processLines` from the source. -/
def claimRecordedLines : Nat → List (List Char) → List Nat
  | _, [] => []
  | n, l :: ls =>
      match l with
      | [] => claimRecordedLines n ls
      | c :: _ =>
          if c = ' ' then claimRecordedLines (n + 1) ls
          else if c = '+' then n :: claimRecordedLines (n + 1) ls
          else claimRecordedLines n ls

/-- A hunk-body line: nonempty, starting with space, plus, or minus. -/
def isBodyLine (l : List Char) : Bool :=
  match l with
  | c :: _ => c == ' ' || c == '+' || c == '-'
  | [] => false

/-! ### Helper lemmas about the Resolver -/

lemma foldl_union_mono :
    ∀ (l : List (String × Finset Nat)) (acc : Finset Nat),
      acc ⊆ l.foldl (fun a kv => a ∪ kv.2) acc
  | [], _ => fun _ hx => hx
  | kv :: rest, acc => fun _ hx =>
      foldl_union_mono rest (acc ∪ kv.2) (Finset.mem_union_left _ hx)

lemma mem_foldl_union :
    ∀ (l : List (String × Finset Nat)) (acc : Finset Nat) (kv : String × Finset Nat),
      kv ∈ l → kv.2 ⊆ l.foldl (fun a kv => a ∪ kv.2) acc := by
  intro l
  induction l with
  | nil => intro acc kv h; cases h
  | cons hd rest ih =>
      intro acc kv h x hx
      rcases List.mem_cons.mp h with rfl | h'
      · exact foldl_union_mono rest (acc ∪ kv.2) (Finset.mem_union_right _ hx)
      · exact ih (acc ∪ hd.2) kv h' hx

lemma mem_instrumentedLines_iff (stl : List (String × Finset Nat)) (x : Nat) :
    x ∈ instrumentedLines stl ↔ ∃ kv, kv ∈ stl ∧ x ∈ kv.2 := by
  have key : ∀ (l : List (String × Finset Nat)) (acc : Finset Nat),
      x ∈ l.foldl (fun a kv => a ∪ kv.2) acc ↔ x ∈ acc ∨ ∃ kv, kv ∈ l ∧ x ∈ kv.2 := by
    intro l
    induction l with
    | nil => simp
    | cons hd rest ih =>
        intro acc
        rw [List.foldl_cons, ih]
        simp [Finset.mem_union]
        tauto
  rw [instrumentedLines, key]
  simp

lemma lookupStmt_mem {stl : List (String × Finset Nat)} {k : String} {ls : Finset Nat}
    (h : lookupStmt stl k = some ls) : ∃ kv, kv ∈ stl ∧ kv.2 = ls := by
  unfold lookupStmt at h
  cases hf : stl.find? (fun kv => kv.1 == k) with
  | none => rw [hf] at h; cases h
  | some kv =>
      rw [hf] at h
      exact ⟨kv, List.mem_of_find?_eq_some hf, by simpa using h⟩

lemma lookupStmt_subset_instrumented {stl : List (String × Finset Nat)} {k : String}
    {ls : Finset Nat} (h : lookupStmt stl k = some ls) : ls ⊆ instrumentedLines stl := by
  obtain ⟨kv, hmem, hv⟩ := lookupStmt_mem h
  have hsub := mem_foldl_union stl ∅ kv hmem
  rw [hv] at hsub
  exact hsub

lemma executedLines_ok_subset (stl : List (String × Finset Nat)) :
    ∀ (s : List (String × Nat)) (acc ex : Finset Nat),
      acc ⊆ instrumentedLines stl → executedLines stl s acc = .ok ex →
      ex ⊆ instrumentedLines stl := by
  intro s
  induction s with
  | nil =>
      intro acc ex hacc h
      cases h
      exact hacc
  | cons hd rest ih =>
      obtain ⟨k, c⟩ := hd
      intro acc ex hacc h
      by_cases hc : c ≠ 0
      · cases hl : lookupStmt stl k with
        | none => rw [executedLines, if_pos hc, hl] at h; cases h
        | some ls =>
            rw [executedLines, if_pos hc, hl] at h
            exact ih (acc ∪ ls) ex
              (Finset.union_subset hacc (lookupStmt_subset_instrumented hl)) h
      · rw [executedLines, if_neg hc] at h
        exact ih acc ex hacc h

lemma executedLines_error_iff (stl : List (String × Finset Nat)) :
    ∀ (s : List (String × Nat)) (acc : Finset Nat),
      (∃ e, executedLines stl s acc = .error e) ↔
      ∃ key cnt, (key, cnt) ∈ s ∧ cnt ≠ 0 ∧ lookupStmt stl key = none := by
  intro s
  induction s with
  | nil => intro acc; simp [executedLines]
  | cons hd rest ih =>
      obtain ⟨k, c⟩ := hd
      intro acc
      by_cases hc : c ≠ 0
      · cases hl : lookupStmt stl k with
        | none =>
            constructor
            · intro _
              exact ⟨k, c, List.mem_cons_self _ _, hc, hl⟩
            · intro _
              exact ⟨.keyError, by rw [executedLines, if_pos hc, hl]⟩
        | some ls =>
            have hstep : executedLines stl ((k, c) :: rest) acc =
                executedLines stl rest (acc ∪ ls) := by
              rw [executedLines, if_pos hc, hl]
            rw [hstep, ih]
            constructor
            · rintro ⟨key, cnt, hmem, hcnt, hnone⟩
              exact ⟨key, cnt, List.mem_cons_of_mem _ hmem, hcnt, hnone⟩
            · rintro ⟨key, cnt, hmem, hcnt, hnone⟩
              rcases List.mem_cons.mp hmem with heq | hmem'
              · injection heq with h1 h2
                exfalso
                rw [h1, hl] at hnone
                cases hnone
              · exact ⟨key, cnt, hmem', hcnt, hnone⟩
      · push_neg at hc
        have hstep : executedLines stl ((k, c) :: rest) acc = executedLines stl rest acc := by
          rw [executedLines]
          simp [hc]
        rw [hstep, ih]
        constructor
        · rintro ⟨key, cnt, hmem, hcnt, hnone⟩
          exact ⟨key, cnt, List.mem_cons_of_mem _ hmem, hcnt, hnone⟩
        · rintro ⟨key, cnt, hmem, hcnt, hnone⟩
          rcases List.mem_cons.mp hmem with heq | hmem'
          · injection heq with h1 h2
            exfalso
            rw [h2, hc] at hcnt
            exact hcnt rfl
          · exact ⟨key, cnt, hmem', hcnt, hnone⟩

lemma executedLines_total (stl : List (String × Finset Nat)) (s : List (String × Nat))
    (acc : Finset Nat) :
    (∃ ex, executedLines stl s acc = .ok ex) ∨ (∃ e, executedLines stl s acc = .error e) := by
  cases h : executedLines stl s acc with
  | ok ex => exact Or.inl ⟨ex, rfl⟩
  | error e => exact Or.inr ⟨e, rfl⟩

/-! ### Claims about the Resolver -/

/-- Claim C3 (confirmed): for every instrumentation input on which the
Resolver succeeds, the per-file executed line set is a subset of the
instrumented line set. -/
theorem executed_subset_instrumented (fnMap statementMap : List (String × Loc))
    (s : List (String × Nat)) (fc : FileCoverage)
    (h : coverageDetailsFile fnMap statementMap s = .ok fc) :
    fc.executed ⊆ fc.instrumented := by
  simp only [coverageDetailsFile] at h
  cases hx : executedLines
      (buildStatementToLines (fnMap.map fun kv => CoverageLines kv.2) statementMap []) s ∅ with
  | error e => rw [hx] at h; cases h
  | ok ex =>
      rw [hx] at h
      injection h with h'
      rw [← h']
      exact executedLines_ok_subset _ s ∅ ex (Finset.empty_subset _) hx

/-- Witness for C3 at a concrete input. -/
theorem executed_subset_instrumented_w :
    (⟨Finset.Icc 1 2, Finset.Icc 1 2⟩ : FileCoverage).executed ⊆
      (⟨Finset.Icc 1 2, Finset.Icc 1 2⟩ : FileCoverage).instrumented :=
  executed_subset_instrumented [] [("0", ⟨1, 2⟩)] [("0", 1)]
    ⟨Finset.Icc 1 2, Finset.Icc 1 2⟩ (by decide)

/-- Claim C1, counterexample: two statements with identical spans (lines
1-1 each) end the subtraction steps both owning line 1, so an instrumented
line can belong to two distinct statements' line-sets. -/
theorem resolver_double_count_cex :
    1 ∈ instrumentedLines (buildStatementToLines [] [("0", ⟨1, 1⟩), ("1", ⟨1, 1⟩)] []) ∧
    ("0", ({1} : Finset Nat)) ∈ buildStatementToLines [] [("0", ⟨1, 1⟩), ("1", ⟨1, 1⟩)] [] ∧
    ("1", ({1} : Finset Nat)) ∈ buildStatementToLines [] [("0", ⟨1, 1⟩), ("1", ⟨1, 1⟩)] [] := by
  decide

/-- Claim C1 as amended: every instrumented line belongs to at least one
statement's post-subtraction line-set, and a subtraction step leaves each
older statement either disjoint from the newly processed statement's lines
or not strictly containing them; exact single ownership fails for equal or
partially overlapping spans. -/
theorem resolver_subtraction_ownership :
    (∀ (stl : List (String × Finset Nat)) (x : Nat),
        x ∈ instrumentedLines stl ↔ ∃ kv, kv ∈ stl ∧ x ∈ kv.2) ∧
    (∀ (lines : Finset Nat) (older : List (String × Finset Nat)) (kv : String × Finset Nat),
        kv ∈ subtractNested lines older → kv.2 ∩ lines = ∅ ∨ ¬lines ⊂ kv.2) := by
  refine ⟨mem_instrumentedLines_iff, ?_⟩
  intro lines older kv hmem
  unfold subtractNested at hmem
  obtain ⟨kv₀, hmem₀, heq⟩ := List.mem_map.mp hmem
  by_cases hsub : lines ⊂ kv₀.2
  · rw [if_pos hsub] at heq
    left
    rw [← heq]
    exact Finset.sdiff_inter_self _ _
  · rw [if_neg hsub] at heq
    right
    rw [← heq]
    exact hsub

/-- Witness for the amended C1 at a concrete input. -/
theorem resolver_subtraction_ownership_w :
    ({2} : Finset Nat) ∩ {1} = ∅ ∨ ¬({1} : Finset Nat) ⊂ {2} :=
  resolver_subtraction_ownership.2 {1} [("0", {1, 2})] ("0", {2}) (by decide)

/-- Claim C2, counterexample: the statement map contains id 0 but the
execution-count map is empty, and the Resolver succeeds silently instead of
signalling a malformed-instrumentation error. -/
theorem resolver_missing_s_entry_ok_cex :
    coverageDetailsFile [] [("0", ⟨5, 5⟩)] [] = .ok ⟨{5}, ∅⟩ := by decide

/-- Claim C2 as amended: the Resolver raises its malformed-instrumentation
error exactly when the execution-count map holds an id with nonzero count
that is unknown to the statement map; a statement id absent from the count
map, or an unknown id with count 0, is silently accepted. -/
theorem resolver_error_iff_unknown_executed_id
    (fnMap statementMap : List (String × Loc)) (s : List (String × Nat)) :
    (∃ e, coverageDetailsFile fnMap statementMap s = .error e) ↔
    ∃ key cnt, (key, cnt) ∈ s ∧ cnt ≠ 0 ∧
      lookupStmt (buildStatementToLines (fnMap.map fun kv => CoverageLines kv.2)
        statementMap []) key = none := by
  rw [← executedLines_error_iff
    (buildStatementToLines (fnMap.map fun kv => CoverageLines kv.2) statementMap []) s ∅]
  simp only [coverageDetailsFile]
  cases hx : executedLines
      (buildStatementToLines (fnMap.map fun kv => CoverageLines kv.2) statementMap []) s ∅ with
  | ok ex => simp [hx]
  | error e => simp [hx]

/-- Witness for the amended C2 at a concrete input. -/
theorem resolver_error_iff_unknown_executed_id_w :
    ∃ e, coverageDetailsFile [] [("0", ⟨1, 1⟩)] [("9", 2)] = .error e :=
  (resolver_error_iff_unknown_executed_id [] [("0", ⟨1, 1⟩)] [("9", 2)]).mpr
    ⟨"9", 2, by decide, by decide, by decide⟩

/-- Claim C10 (confirmed): id mismatches are handled asymmetrically — the
executed-lines pass succeeds exactly when every nonzero-count id of the
"s" map is known to the statement map, so a statement id absent from "s"
never errs (its lines are instrumented but contribute nothing to executed),
an unknown id with count 0 is silently ignored, and an unknown id with a
positive count raises.  The three concrete cases exhibit each behavior. -/
theorem resolver_id_mismatch_asymmetry :
    (∀ (stl : List (String × Finset Nat)) (s : List (String × Nat)) (acc : Finset Nat),
        (∃ ex, executedLines stl s acc = .ok ex) ↔
        ∀ kv ∈ s, kv.2 ≠ 0 → lookupStmt stl kv.1 ≠ none) ∧
    coverageDetailsFile [] [("0", ⟨1, 2⟩)] [] = .ok ⟨Finset.Icc 1 2, ∅⟩ ∧
    coverageDetailsFile [] [("0", ⟨1, 2⟩)] [("7", 0)] = .ok ⟨Finset.Icc 1 2, ∅⟩ ∧
    coverageDetailsFile [] [("0", ⟨1, 2⟩)] [("7", 3)] = .error .keyError := by
  refine ⟨?_, by decide, by decide, by decide⟩
  intro stl s acc
  constructor
  · rintro ⟨ex, hex⟩ kv hmem hcnt hnone
    obtain ⟨e, he⟩ := (executedLines_error_iff stl s acc).mpr ⟨kv.1, kv.2, hmem, hcnt, hnone⟩
    rw [hex] at he
    cases he
  · intro hall
    rcases executedLines_total stl s acc with hok | herr
    · exact hok
    · obtain ⟨key, cnt, hmem, hcnt, hnone⟩ := (executedLines_error_iff stl s acc).mp herr
      exact absurd hnone (hall (key, cnt) hmem hcnt)

/-- Witness for C10's general part at a concrete input. -/
theorem resolver_id_mismatch_asymmetry_w :
    ∃ ex, executedLines [("0", {1})] [("0", 2), ("9", 0)] ∅ = .ok ex :=
  (resolver_id_mismatch_asymmetry.1 [("0", {1})] [("0", 2), ("9", 0)] ∅).mpr (by decide)

/-- Claim C5 (confirmed): statement 7-10 with nested function 8-9 executed
once resolves to instrumented = executed = the two lines 7 and 10, and
aggregating changed lines 7-10 gives denominator 2, numerator 2, ratio 1. -/
theorem nested_function_scenario :
    coverageDetailsFile [("0", ⟨8, 9⟩)] [("0", ⟨7, 10⟩)] [("0", 1)] =
      .ok ⟨{7, 10}, {7, 10}⟩ ∧
    coverageCounts [("f", [7, 8, 9, 10])] [("f", ⟨{7, 10}, {7, 10}⟩)] = (2, 2) ∧
    IncrementalCoverage [("f", [7, 8, 9, 10])] [("f", ⟨{7, 10}, {7, 10}⟩)] = some 1 := by
  refine ⟨by decide, by decide, ?_⟩
  have h : coverageCounts [("f", [7, 8, 9, 10])] [("f", ⟨{7, 10}, {7, 10}⟩)] = (2, 2) := by
    decide
  simp [IncrementalCoverage, h]

/-! ### Helper lemmas about the Extractor and Python str.split -/

lemma isLeading_append (sep t : List Char) : isLeading sep (sep ++ t) = true := by
  induction sep with
  | nil => rfl
  | cons c cs ih => simp [isLeading, ih]

lemma splitFirst_not_mem (c₀ : Char) (cs : List Char) :
    ∀ s : List Char, c₀ ∉ s → splitFirst (c₀ :: cs) s = none := by
  intro s
  induction s with
  | nil => intro _; rfl
  | cons x rest ih =>
      intro h
      have hx : ¬(c₀ = x) := fun he => h (by rw [he]; exact List.mem_cons_self x rest)
      have hbe : (c₀ == x) = false := beq_eq_false_iff_ne.mpr hx
      have hrest : splitFirst (c₀ :: cs) rest = none :=
        ih fun hm => h (List.mem_cons_of_mem _ hm)
      rw [splitFirst]
      simp [isLeading, hbe, hrest]

lemma splitFirst_append (c₀ : Char) (cs t : List Char) :
    ∀ a : List Char, c₀ ∉ a →
      splitFirst (c₀ :: cs) (a ++ (c₀ :: cs) ++ t) = some (a, t) := by
  intro a
  induction a with
  | nil =>
      intro _
      show splitFirst (c₀ :: cs) (c₀ :: (cs ++ t)) = some ([], t)
      have hlead : isLeading (c₀ :: cs) (c₀ :: (cs ++ t)) = true := isLeading_append (c₀ :: cs) t
      rw [splitFirst]
      simp [hlead, List.drop_left cs t]
  | cons x a' ih =>
      intro h
      have hx : ¬(c₀ = x) := fun he => h (by rw [he]; exact List.mem_cons_self x _)
      have hbe : (c₀ == x) = false := beq_eq_false_iff_ne.mpr hx
      have hrest := ih fun hm => h (List.mem_cons_of_mem _ hm)
      have hrest' : splitFirst (c₀ :: cs) (a' ++ c₀ :: (cs ++ t)) = some (a', t) := by
        simpa using hrest
      show splitFirst (c₀ :: cs) (x :: (a' ++ (c₀ :: cs) ++ t)) = some (x :: a', t)
      rw [splitFirst]
      simp [isLeading, hbe, hrest']

lemma pySplitAux_of_none {sep s : List Char} (h : splitFirst sep s = none) :
    ∀ fuel, pySplitAux fuel sep s = [s] := by
  intro fuel
  cases fuel with
  | zero => rfl
  | succ f => simp [pySplitAux, h]

lemma pySplit_cons {sep s a b : List Char} (h : splitFirst sep s = some (a, b)) :
    pySplit sep s = a :: pySplitAux s.length sep b := by
  unfold pySplit
  simp [pySplitAux, h]

lemma pySplit_pair {sep s a b : List Char} (h1 : splitFirst sep s = some (a, b))
    (h2 : splitFirst sep b = none) : pySplit sep s = [a, b] := by
  rw [pySplit_cons h1, pySplitAux_of_none h2]

lemma pySplit_single {sep s : List Char} (h : splitFirst sep s = none) :
    pySplit sep s = [s] :=
  pySplitAux_of_none h _

lemma pyIntDigits_digits {ds : List Char} (h1 : ds ≠ [])
    (h2 : ∀ c ∈ ds, c.isDigit = true) : pyIntDigits ds = some (digitsVal ds) := by
  unfold pyIntDigits
  rw [if_pos ⟨h1, List.all_eq_true.mpr h2⟩]

lemma isDigit_ne {c : Char} (h : c.isDigit = true) :
    c ≠ '+' ∧ c ≠ ' ' ∧ c ≠ ',' ∧ c ≠ '@' := by
  refine ⟨?_, ?_, ?_, ?_⟩ <;> rintro rfl <;> exact absurd h (by decide)

lemma processLine_context (n : Nat) (acc : List Nat) (cs : List Char) :
    processLine (some n, acc) (' ' :: cs) = .ok (some (n + 1), acc) := rfl

lemma processLine_added (n : Nat) (acc : List Nat) (cs : List Char) :
    processLine (some n, acc) ('+' :: cs) = .ok (some (n + 1), acc ++ [n]) := rfl

lemma processLine_other (st : Option Nat × List Nat) (c : Char) (cs : List Char)
    (h1 : ¬c = '@') (h2 : ¬c = ' ') (h3 : ¬c = '+') :
    processLine st (c :: cs) = .ok st := by
  rw [processLine]
  rw [if_neg h1, if_neg h2, if_neg h3]

/-! ### Claims about the Extractor -/

/-- Claim C6 (confirmed): on every well-formed hunk body the Extractor
records exactly the plus-prefixed lines at the running new-file counter
(context lines advance it, added lines are recorded then advance it,
removed lines leave it untouched), and the concrete patch of the claim
yields exactly the changed lines 11 and 12. -/
theorem extractor_records_plus_lines :
    (∀ (body : List (List Char)) (n : Nat) (acc : List Nat),
        (∀ l ∈ body, isBodyLine l = true) →
        processLines (some n) acc body = .ok (acc ++ claimRecordedLines n body)) ∧
    extractTouchedLines
        ("@@ -10,3 +10,5 @@\n context\n-removed\n+added1\n+added2\n context2").toList =
      .ok [11, 12] := by
  refine ⟨?_, by decide⟩
  intro body
  induction body with
  | nil => intro n acc _; simp [processLines, claimRecordedLines]
  | cons l ls ih =>
      intro n acc h
      have hl := h l (List.mem_cons_self _ _)
      have hrest : ∀ l' ∈ ls, isBodyLine l' = true :=
        fun l' hm => h l' (List.mem_cons_of_mem _ hm)
      cases l with
      | nil => simp [isBodyLine] at hl
      | cons c cs =>
          have hc : c = ' ' ∨ c = '+' ∨ c = '-' := by
            simpa [isBodyLine, beq_iff_eq, or_assoc] using hl
          rcases hc with rfl | rfl | rfl
          · rw [processLines, processLine_context]
            show processLines (some (n + 1)) acc ls = _
            rw [ih (n + 1) acc hrest]
            simp [claimRecordedLines]
          · rw [processLines, processLine_added]
            show processLines (some (n + 1)) (acc ++ [n]) ls = _
            rw [ih (n + 1) (acc ++ [n]) hrest]
            simp [claimRecordedLines]
          · rw [processLines,
              processLine_other (some n, acc) '-' cs (by decide) (by decide) (by decide)]
            show processLines (some n) acc ls = _
            rw [ih n acc hrest]
            simp [claimRecordedLines]

/-- Witness for C6's general part at a concrete body. -/
theorem extractor_records_plus_lines_w :
    processLines (some 5) [] [['+', 'x'], [' ', 'y'], ['+', 'z']] =
      .ok ([] ++ claimRecordedLines 5 [['+', 'x'], [' ', 'y'], ['+', 'z']]) :=
  extractor_records_plus_lines.1 [['+', 'x'], [' ', 'y'], ['+', 'z']] 5 [] (by decide)

/-- Claim C7 (confirmed): for every hunk header line — new-file start
digits `ds` with the count suffix either omitted (`ms = []`) or present
(`ms = ',' :: r`) — the header parse sets the running counter to the value
of `ds`, identically in both cases, so the hunk body then produces the same
changed lines either way. -/
theorem header_count_suffix_optional
    (pre ds ms trail : List Char) (o : Option Nat) (acc : List Nat)
    (hpre : '+' ∉ pre) (hds : ds ≠ []) (hdig : ∀ c ∈ ds, c.isDigit = true)
    (hms : ms = [] ∨ ∃ r, ms = ',' :: r ∧ ' ' ∉ r ∧ '+' ∉ r)
    (htrail : '+' ∉ trail) :
    processLine (o, acc)
        ('@' :: (pre ++ '+' :: (ds ++ ms ++ (' ' :: '@' :: '@' :: trail)))) =
      .ok (some (digitsVal ds), acc) := by
  have hplus_ds : '+' ∉ ds := fun hm => (isDigit_ne (hdig _ hm)).1 rfl
  have hspace_ds : ' ' ∉ ds := fun hm => (isDigit_ne (hdig _ hm)).2.1 rfl
  have hcomma_ds : ',' ∉ ds := fun hm => (isDigit_ne (hdig _ hm)).2.2.1 rfl
  have hplus_ms : '+' ∉ ms := by
    rcases hms with rfl | ⟨r, rfl, _, hr⟩
    · simp
    · simp [hr]
  have hspace_ms : ' ' ∉ ms := by
    rcases hms with rfl | ⟨r, rfl, hr, _⟩
    · simp
    · simp [hr]
  have hplus_rest : '+' ∉ ds ++ ms ++ (' ' :: '@' :: '@' :: trail) := by
    simp [hplus_ds, hplus_ms, htrail]
  have hsf1 : splitFirst ['+']
      (('@' :: pre) ++ ['+'] ++ (ds ++ ms ++ (' ' :: '@' :: '@' :: trail))) =
      some ('@' :: pre, ds ++ ms ++ (' ' :: '@' :: '@' :: trail)) :=
    splitFirst_append '+' [] _ ('@' :: pre) (by simp [hpre])
  have hsf1' : splitFirst ['+']
      ('@' :: (pre ++ '+' :: (ds ++ ms ++ (' ' :: '@' :: '@' :: trail)))) =
      some ('@' :: pre, ds ++ ms ++ (' ' :: '@' :: '@' :: trail)) := by
    simpa using hsf1
  have hp1 : pySplit ['+']
      ('@' :: (pre ++ '+' :: (ds ++ ms ++ (' ' :: '@' :: '@' :: trail)))) =
      ['@' :: pre, ds ++ ms ++ (' ' :: '@' :: '@' :: trail)] :=
    pySplit_pair hsf1' (splitFirst_not_mem '+' [] _ hplus_rest)
  have hsf2 : splitFirst [' ', '@', '@']
      ((ds ++ ms) ++ (' ' :: '@' :: '@' :: []) ++ trail) = some (ds ++ ms, trail) :=
    splitFirst_append ' ' ['@', '@'] trail (ds ++ ms) (by simp [hspace_ds, hspace_ms])
  have hsf2' : splitFirst [' ', '@', '@']
      (ds ++ ms ++ (' ' :: '@' :: '@' :: trail)) = some (ds ++ ms, trail) := by
    simpa using hsf2
  have hp2 : (pySplit [' ', '@', '@'] (ds ++ ms ++ (' ' :: '@' :: '@' :: trail))).headD [] =
      ds ++ ms := by
    rw [pySplit_cons hsf2']
    rfl
  have hp3 : (pySplit [','] (ds ++ ms)).headD [] = ds := by
    rcases hms with rfl | ⟨r, rfl, _, _⟩
    · rw [List.append_nil, pySplit_single (splitFirst_not_mem ',' [] ds hcomma_ds)]
      rfl
    · have hsf3 : splitFirst [','] (ds ++ [','] ++ r) = some (ds, r) :=
        splitFirst_append ',' [] r ds hcomma_ds
      have hsf3' : splitFirst [','] (ds ++ ',' :: r) = some (ds, r) := by
        simpa using hsf3
      rw [pySplit_cons hsf3']
      rfl
  rw [processLine, if_pos rfl, hp1]
  simp only [hp2, hp3, pyIntDigits_digits hds hdig]

/-- Witness for C7 at the concrete headers of the claim: the header with
the count suffix omitted parses to counter 1. -/
theorem header_count_suffix_optional_w :
    processLine (none, ([] : List Nat)) ("@@ -0,0 +1 @@").toList =
      .ok (some 1, []) := by
  have h := header_count_suffix_optional ['@', ' ', '-', '0', ',', '0', ' ']
    ['1'] [] [] none [] (by decide) (by decide) (by decide) (Or.inl rfl) (by decide)
  simpa using h

/-- Claim C9, counterexample: a patch whose first line is a removed line
(not a hunk header) is processed without any failure, returning the changed
line 1 — so the Extractor is total on some patches whose first line is not
a hunk header, and a body line before the header does not always fail. -/
theorem extractor_total_without_leading_header_cex :
    extractTouchedLines ("-x\n@@ -1,1 +1,1 @@\n+y").toList = .ok [1] := by decide

/-- Claim C9 as amended: the Extractor is partial — an empty line fails
with the indexing error when the loop reaches it, and a context or added
line reached while the counter is still unset fails with the None-counter
error; but a removed line (minus prefix) before any header is skipped
harmlessly, so totality does not require the first line to be a hunk
header. -/
theorem extractor_partiality_amended :
    (∀ (o : Option Nat) (acc : List Nat) (rest : List (List Char)),
        processLines o acc ([] :: rest) = .error .indexEmptyLine) ∧
    (∀ (acc : List Nat) (rest : List (List Char)) (cs : List Char),
        processLines none acc ((' ' :: cs) :: rest) = .error .typeNoneCounter) ∧
    (∀ (acc : List Nat) (rest : List (List Char)) (cs : List Char),
        processLines none acc (('+' :: cs) :: rest) = .error .typeNoneCounter) ∧
    (∀ (acc : List Nat) (rest : List (List Char)) (cs : List Char),
        processLines none acc (('-' :: cs) :: rest) = processLines none acc rest) :=
  ⟨fun _ _ _ => rfl, fun _ _ _ => rfl, fun _ _ _ => rfl, fun _ _ _ => rfl⟩

/-! ### Helper lemmas about the Aggregator -/

lemma foldl_countLine_id (instr exec : Finset Nat) :
    ∀ (lines : List Nat) (p : Nat × Nat), (∀ line ∈ lines, line ∉ instr) →
      lines.foldl (countLine instr exec) p = p := by
  intro lines
  induction lines with
  | nil => intro p _; rfl
  | cons x rest ih =>
      intro p h
      rw [List.foldl_cons, countLine, if_neg (h x (List.mem_cons_self _ _))]
      exact ih p fun l hm => h l (List.mem_cons_of_mem _ hm)

lemma countLine_le (instr exec : Finset Nat) (p : Nat × Nat) (x : Nat)
    (h : p.2 ≤ p.1) : (countLine instr exec p x).2 ≤ (countLine instr exec p x).1 := by
  by_cases hx : x ∈ instr
  · by_cases he : x ∈ exec <;> simp [countLine, hx, he] <;> omega
  · simpa [countLine, hx] using h

lemma foldl_countLine_le (instr exec : Finset Nat) :
    ∀ (lines : List Nat) (p : Nat × Nat), p.2 ≤ p.1 →
      (lines.foldl (countLine instr exec) p).2 ≤ (lines.foldl (countLine instr exec) p).1 := by
  intro lines
  induction lines with
  | nil => intro p h; exact h
  | cons x rest ih =>
      intro p h
      rw [List.foldl_cons]
      exact ih _ (countLine_le instr exec p x h)

lemma countLine_eq (instr exec : Finset Nat) (p : Nat × Nat) (x : Nat)
    (hcov : x ∈ instr → x ∈ exec) (h : p.2 = p.1) :
    (countLine instr exec p x).2 = (countLine instr exec p x).1 := by
  by_cases hx : x ∈ instr
  · simp [countLine, hx, hcov hx, h]
  · simpa [countLine, hx] using h

lemma foldl_countLine_eq (instr exec : Finset Nat) :
    ∀ (lines : List Nat) (p : Nat × Nat), (∀ line ∈ lines, line ∈ instr → line ∈ exec) →
      p.2 = p.1 →
      (lines.foldl (countLine instr exec) p).2 = (lines.foldl (countLine instr exec) p).1 := by
  intro lines
  induction lines with
  | nil => intro p _ h; exact h
  | cons x rest ih =>
      intro p hcov h
      rw [List.foldl_cons]
      exact ih _ (fun l hm => hcov l (List.mem_cons_of_mem _ hm))
        (countLine_eq instr exec p x (hcov x (List.mem_cons_self _ _)) h)

lemma coverageCounts_foldl_id (files : List (String × FileCoverage)) :
    ∀ (changes : List (String × List Nat)) (p : Nat × Nat),
      (∀ pc ∈ changes, ∀ fc, lookupFile files pc.1 = some fc →
        ∀ line ∈ pc.2, line ∉ fc.instrumented) →
      changes.foldl
        (fun p pc =>
          match lookupFile files pc.1 with
          | some fc => pc.2.foldl (countLine fc.instrumented fc.executed) p
          | none => p) p = p := by
  intro changes
  induction changes with
  | nil => intro p _; rfl
  | cons pc rest ih =>
      intro p h
      rw [List.foldl_cons]
      cases hf : lookupFile files pc.1 with
      | none =>
          simp only [hf]
          exact ih p fun pc' hm => h pc' (List.mem_cons_of_mem _ hm)
      | some fc =>
          simp only [hf]
          rw [foldl_countLine_id fc.instrumented fc.executed pc.2 p
            (h pc (List.mem_cons_self _ _) fc hf)]
          exact ih p fun pc' hm => h pc' (List.mem_cons_of_mem _ hm)

lemma coverageCounts_foldl_le (files : List (String × FileCoverage)) :
    ∀ (changes : List (String × List Nat)) (p : Nat × Nat), p.2 ≤ p.1 →
      (changes.foldl
        (fun p pc =>
          match lookupFile files pc.1 with
          | some fc => pc.2.foldl (countLine fc.instrumented fc.executed) p
          | none => p) p).2 ≤
      (changes.foldl
        (fun p pc =>
          match lookupFile files pc.1 with
          | some fc => pc.2.foldl (countLine fc.instrumented fc.executed) p
          | none => p) p).1 := by
  intro changes
  induction changes with
  | nil => intro p h; exact h
  | cons pc rest ih =>
      intro p h
      rw [List.foldl_cons]
      cases hf : lookupFile files pc.1 with
      | none => simp only [hf]; exact ih p h
      | some fc =>
          simp only [hf]
          exact ih _ (foldl_countLine_le fc.instrumented fc.executed pc.2 p h)

lemma coverageCounts_foldl_eq (files : List (String × FileCoverage)) :
    ∀ (changes : List (String × List Nat)) (p : Nat × Nat),
      (∀ pc ∈ changes, ∀ fc, lookupFile files pc.1 = some fc →
        ∀ line ∈ pc.2, line ∈ fc.instrumented → line ∈ fc.executed) →
      p.2 = p.1 →
      (changes.foldl
        (fun p pc =>
          match lookupFile files pc.1 with
          | some fc => pc.2.foldl (countLine fc.instrumented fc.executed) p
          | none => p) p).2 =
      (changes.foldl
        (fun p pc =>
          match lookupFile files pc.1 with
          | some fc => pc.2.foldl (countLine fc.instrumented fc.executed) p
          | none => p) p).1 := by
  intro changes
  induction changes with
  | nil => intro p _ h; exact h
  | cons pc rest ih =>
      intro p hcov h
      rw [List.foldl_cons]
      cases hf : lookupFile files pc.1 with
      | none =>
          simp only [hf]
          exact ih p (fun pc' hm => hcov pc' (List.mem_cons_of_mem _ hm)) h
      | some fc =>
          simp only [hf]
          exact ih _ (fun pc' hm => hcov pc' (List.mem_cons_of_mem _ hm))
            (foldl_countLine_eq fc.instrumented fc.executed pc.2 p
              (hcov pc (List.mem_cons_self _ _) fc hf) h)

/-! ### Claims about the Aggregator -/

/-- Claim C4 (confirmed): when no changed line of any shared file is
instrumented, the Aggregator returns the sentinel `none` (Python's `None`,
rendered as the "no instrumented code was changed" message) — it performs
no division and returns no ratio at all, in particular not 0. -/
theorem aggregator_none_on_zero_denominator (changes : List (String × List Nat))
    (files : List (String × FileCoverage))
    (h : ∀ pc ∈ changes, ∀ fc, lookupFile files pc.1 = some fc →
         ∀ line ∈ pc.2, line ∉ fc.instrumented) :
    IncrementalCoverage changes files = none ∧
    ∀ q : ℚ, IncrementalCoverage changes files ≠ some q := by
  have hz : coverageCounts changes files = (0, 0) :=
    coverageCounts_foldl_id files changes (0, 0) h
  refine ⟨?_, ?_⟩
  · simp [IncrementalCoverage, hz]
  · intro q
    simp [IncrementalCoverage, hz]

/-- Witness for C4 at a concrete input. -/
theorem aggregator_none_on_zero_denominator_w :
    IncrementalCoverage [("a", [1])] [] = none ∧
    ∀ q : ℚ, IncrementalCoverage [("a", [1])] [] ≠ some q :=
  aggregator_none_on_zero_denominator [("a", [1])] []
    (by rintro pc hpc fc hfc; simp [lookupFile] at hfc)

/-- Claim C8 (confirmed): with a nonzero denominator the Aggregator's
result is exactly numerator over denominator, a rational in the closed
interval from 0 to 1; and when every changed instrumented line is also
executed, the result is exactly 1. -/
theorem aggregator_ratio_bounds (changes : List (String × List Nat))
    (files : List (String × FileCoverage))
    (hd : (coverageCounts changes files).1 ≠ 0) :
    IncrementalCoverage changes files =
      some (((coverageCounts changes files).2 : ℚ) / ((coverageCounts changes files).1 : ℚ)) ∧
    0 ≤ ((coverageCounts changes files).2 : ℚ) / ((coverageCounts changes files).1 : ℚ) ∧
    ((coverageCounts changes files).2 : ℚ) / ((coverageCounts changes files).1 : ℚ) ≤ 1 ∧
    ((∀ pc ∈ changes, ∀ fc, lookupFile files pc.1 = some fc →
        ∀ line ∈ pc.2, line ∈ fc.instrumented → line ∈ fc.executed) →
      IncrementalCoverage changes files = some 1) := by
  have hle : (coverageCounts changes files).2 ≤ (coverageCounts changes files).1 :=
    coverageCounts_foldl_le files changes (0, 0) (le_refl 0)
  have hpos : (0 : ℚ) < ((coverageCounts changes files).1 : ℚ) := by
    exact_mod_cast Nat.pos_of_ne_zero hd
  refine ⟨?_, ?_, ?_, ?_⟩
  · simp [IncrementalCoverage, hd]
  · exact div_nonneg (by positivity) (le_of_lt hpos)
  · rw [div_le_one hpos]
    exact_mod_cast hle
  · intro hcov
    have heq : (coverageCounts changes files).2 = (coverageCounts changes files).1 :=
      coverageCounts_foldl_eq files changes (0, 0) hcov rfl
    simp only [IncrementalCoverage, if_neg hd]
    rw [heq, div_self (ne_of_gt hpos)]

/-- Witness for C8 at a concrete input. -/
theorem aggregator_ratio_bounds_w :
    IncrementalCoverage [("f", [1])] [("f", ⟨{1}, {1}⟩)] =
      some (((coverageCounts [("f", [1])] [("f", ⟨{1}, {1}⟩)]).2 : ℚ) /
        ((coverageCounts [("f", [1])] [("f", ⟨{1}, {1}⟩)]).1 : ℚ)) ∧
    0 ≤ ((coverageCounts [("f", [1])] [("f", ⟨{1}, {1}⟩)]).2 : ℚ) /
        ((coverageCounts [("f", [1])] [("f", ⟨{1}, {1}⟩)]).1 : ℚ) ∧
    ((coverageCounts [("f", [1])] [("f", ⟨{1}, {1}⟩)]).2 : ℚ) /
        ((coverageCounts [("f", [1])] [("f", ⟨{1}, {1}⟩)]).1 : ℚ) ≤ 1 ∧
    ((∀ pc ∈ [("f", [1])], ∀ fc, lookupFile [("f", ⟨{1}, {1}⟩)] pc.1 = some fc →
        ∀ line ∈ pc.2, line ∈ fc.instrumented → line ∈ fc.executed) →
      IncrementalCoverage [("f", [1])] [("f", ⟨{1}, {1}⟩)] = some 1) :=
  aggregator_ratio_bounds [("f", [1])] [("f", ⟨{1}, {1}⟩)] (by decide)
